import Mathlib

/-!
Shallow embedding of the numerical core of the modelado-iue repository:
the one-dimensional minimization routines (golden-section search,
Fibonacci search, bisection on the derivative, Newton's method), the
custom-formula validator, and the plot sampler, together with proofs of
the behavioural properties the specification states about them.

Numbers are modelled over an arbitrary linear ordered field (the host
floating-point arithmetic is idealised as exact field arithmetic);
theorems about the golden ratio instantiate the field at the reals.
-/

namespace ModeladoIUE

variable {α : Type} [LinearOrderedField α]

/-! ## Trace / Result model

Each algorithm appends one record per loop pass and returns the optimum
estimate, the objective value there, and the full history. -/

/-- One history entry of goldenSectionSearch
(GoldenSection.jsx line 65). -/
structure GoldenRecord (α : Type) where
  iter : Nat
  a : α
  b : α
  c : α
  d : α
  fc : α
  fd : α
  midpoint : α
  deriving DecidableEq

/-- The result shape shared by all routines: optimum estimate, objective
value there, iteration history. -/
structure SearchResult (α : Type) (rec : Type) where
  xOpt : α
  fOpt : α
  history : List rec
  deriving DecidableEq

/-! ## Golden-section search (GoldenSection.jsx lines 56-85)

The source fixes `phi = (1 + Math.sqrt(5)) / 2`; the embedding takes
`phi` as a parameter so that the algorithm stays computable over any
field, and the theorems instantiate it at `(1 + Real.sqrt 5) / 2`. -/

/-- The loop state of goldenSectionSearch: the bracket, the two interior
points and their cached objective values. -/
structure GoldenState (α : Type) where
  a : α
  b : α
  c : α
  d : α
  fc : α
  fd : α
  deriving DecidableEq

/-- The record pushed at the top of each goldenSectionSearch iteration
(GoldenSection.jsx line 65). -/
def goldenRecOf (iter : Nat) (s : GoldenState α) : GoldenRecord α :=
  ⟨iter + 1, s.a, s.b, s.c, s.d, s.fc, s.fd, (s.a + s.b) / 2⟩

/-- The body of the goldenSectionSearch loop after the tolerance test
(GoldenSection.jsx lines 67-79): keep the side of the bracket selected by
the strict comparison `fc < fd`, reuse the surviving interior evaluation,
and evaluate the objective once at the fresh interior point. -/
def goldenStep (f : α → α) (phi : α) (s : GoldenState α) : GoldenState α :=
  if s.fc < s.fd then
    let b := s.d
    let d := s.c
    let fd := s.fc
    let c := b - (b - s.a) / phi
    ⟨s.a, b, c, d, f c, fd⟩
  else
    let a := s.c
    let c := s.d
    let fc := s.fd
    let d := a + (s.b - a) / phi
    ⟨a, s.b, c, d, fc, f d⟩

/-- The goldenSectionSearch iteration loop (GoldenSection.jsx lines
64-80), with the iteration budget as fuel: push a record, stop when
`|b - a| < tol`, otherwise step. -/
def goldenLoop (f : α → α) (phi tol : α) :
    Nat → Nat → GoldenState α → List (GoldenRecord α) →
    GoldenState α × List (GoldenRecord α)
  | 0, _, s, h => (s, h)
  | fuel + 1, iter, s, h =>
    let h' := h ++ [goldenRecOf iter s]
    if |s.b - s.a| < tol then (s, h')
    else goldenLoop f phi tol fuel (iter + 1) (goldenStep f phi s) h'

/-- goldenSectionSearch (GoldenSection.jsx lines 56-85): place the two
interior points, run the loop, and return the midpoint of the final
bracket with its objective value. -/
def goldenSectionSearch (phi : α) (f : α → α) (a b tol : α)
    (maxIter : Nat) : SearchResult α (GoldenRecord α) :=
  let c := b - (b - a) / phi
  let d := a + (b - a) / phi
  let r := goldenLoop f phi tol maxIter 0 ⟨a, b, c, d, f c, f d⟩ []
  let xOpt := (r.1.a + r.1.b) / 2
  ⟨xOpt, f xOpt, r.2⟩

/-! ## Fibonacci search (Fibonacci.jsx lines 51-99) -/

/-- The Fibonacci sequence exactly as fibonacciSearch precomputes it
(Fibonacci.jsx lines 53-56): `fib[0] = fib[1] = 1` and
`fib[i] = fib[i-1] + fib[i-2]`. -/
def fib : Nat → Nat
  | 0 => 1
  | 1 => 1
  | n + 2 => fib (n + 1) + fib n

/-- One history entry of fibonacciSearch (Fibonacci.jsx lines 67-77). -/
structure FibRecord (α : Type) where
  iter : Nat
  a : α
  b : α
  x1 : α
  x2 : α
  f1 : α
  f2 : α
  fib_k : Nat
  midpoint : α
  deriving DecidableEq

/-- The loop state of fibonacciSearch: bracket, interior points, cached
objective values, and the decrementing Fibonacci index `k`. -/
structure FibState (α : Type) where
  a : α
  b : α
  x1 : α
  x2 : α
  f1 : α
  f2 : α
  k : Nat
  deriving DecidableEq

/-- The record pushed at the top of each fibonacciSearch iteration
(Fibonacci.jsx lines 67-77). -/
def fibRecOf (iter : Nat) (s : FibState α) : FibRecord α :=
  ⟨iter + 1, s.a, s.b, s.x1, s.x2, s.f1, s.f2, fib s.k, (s.a + s.b) / 2⟩

/-- The body of the fibonacciSearch loop (Fibonacci.jsx lines 79-93):
keep the side selected by the strict comparison `f1 < f2`, reuse the
surviving interior evaluation, decrement `k`, and evaluate the objective
once at the fresh interior point.  (On the very last pass of the
`f1 < f2` branch the source indexes `fib[-1]`, producing a NaN that the
search never reads; Nat subtraction makes that unread value `fib 0`
here, with the same observable behaviour.) -/
def fibStep (f : α → α) (s : FibState α) : FibState α :=
  if s.f1 < s.f2 then
    let b := s.x2
    let k := s.k - 1
    let x1 := s.a + ((fib (k - 2) : α) / (fib k : α)) * (b - s.a)
    ⟨s.a, b, x1, s.x1, f x1, s.f1, k⟩
  else
    let a := s.x1
    let k := s.k - 1
    let x2 := a + ((fib (k - 1) : α) / (fib k : α)) * (s.b - a)
    ⟨a, s.b, s.x2, x2, s.f2, f x2, k⟩

/-- The fibonacciSearch iteration loop (Fibonacci.jsx lines 66-94): a
fixed iteration count, no tolerance test. -/
def fibLoop (f : α → α) :
    Nat → Nat → FibState α → List (FibRecord α) →
    FibState α × List (FibRecord α)
  | 0, _, s, h => (s, h)
  | fuel + 1, iter, s, h =>
    fibLoop f fuel (iter + 1) (fibStep f s) (h ++ [fibRecOf iter s])

/-- fibonacciSearch (Fibonacci.jsx lines 51-99): precompute the
Fibonacci positions, run exactly `n - 1` iterations, and return the
midpoint of the final bracket with its objective value. -/
def fibonacciSearch (f : α → α) (a b : α) (n : Nat) :
    SearchResult α (FibRecord α) :=
  let x1 := a + ((fib (n - 2) : α) / (fib n : α)) * (b - a)
  let x2 := a + ((fib (n - 1) : α) / (fib n : α)) * (b - a)
  let r := fibLoop f (n - 1) 0 ⟨a, b, x1, x2, f x1, f x2, n⟩ []
  let xOpt := (r.1.a + r.1.b) / 2
  ⟨xOpt, f xOpt, r.2⟩

/-! ## Bisection on the derivative (GoldenSection.jsx lines 453-483) -/

/-- One history entry of bisectionMethod (GoldenSection.jsx lines
461-469). -/
structure BisRecord (α : Type) where
  iter : Nat
  a : α
  b : α
  c : α
  fc : α
  dfc : α
  error : α
  deriving DecidableEq

/-- The record pushed in each bisectionMethod iteration (GoldenSection.jsx
lines 457-469): midpoint, objective and derivative values there, and the
bracket width as the error column. -/
def bisRecOf (f df : α → α) (iter : Nat) (a b : α) : BisRecord α :=
  ⟨iter + 1, a, b, (a + b) / 2, f ((a + b) / 2), df ((a + b) / 2), |b - a|⟩

/-- The bisectionMethod iteration loop (GoldenSection.jsx lines 456-478):
take the midpoint, record, stop when `|f'(c)| < tol` or `|b - a| < tol`,
otherwise keep the half selected by the sign of `f'(c)`. -/
def bisLoop (f df : α → α) (tol : α) :
    Nat → Nat → α → α → List (BisRecord α) →
    (α × α) × List (BisRecord α)
  | 0, _, a, b, h => ((a, b), h)
  | fuel + 1, iter, a, b, h =>
    let c := (a + b) / 2
    let dfc := df c
    let h' := h ++ [bisRecOf f df iter a b]
    if |dfc| < tol ∨ |b - a| < tol then ((a, b), h')
    else if dfc > 0 then bisLoop f df tol fuel (iter + 1) a c h'
    else bisLoop f df tol fuel (iter + 1) c b h'

/-- bisectionMethod (GoldenSection.jsx lines 453-483): run the loop and
return the midpoint of the final bracket with its objective value. -/
def bisectionMethod (f df : α → α) (a b tol : α) (maxIter : Nat) :
    SearchResult α (BisRecord α) :=
  let r := bisLoop f df tol maxIter 0 a b []
  let xOpt := (r.1.1 + r.1.2) / 2
  ⟨xOpt, f xOpt, r.2⟩

/-! ## Newton's method (unnamed component, lines 67-98) -/

/-- One history entry of newtonMethod (lines 76-83 of the unnamed
component). -/
structure NewtonRecord (α : Type) where
  iter : Nat
  x : α
  fx : α
  dfx : α
  d2fx : α
  step : α
  deriving DecidableEq

/-- The record pushed at the top of each newtonMethod iteration. -/
def newtonRecOf (f df d2f : α → α) (iter : Nat) (x : α) : NewtonRecord α :=
  ⟨iter + 1, x, f x, df x, d2f x, df x / d2f x⟩

/-- The newtonMethod iteration loop (lines 71-94 of the unnamed
component): record, stop on `|f'(x)| < tol` (converged) or on
`|f''(x)| < 1e-12` (the non-fatal stall, whose alert is modelled by the
Boolean the loop returns), otherwise step `x ← x - f'(x)/f''(x)`. -/
def newtonLoop (f df d2f : α → α) (tol : α) :
    Nat → Nat → α → List (NewtonRecord α) →
    α × List (NewtonRecord α) × Bool
  | 0, _, x, h => (x, h, false)
  | fuel + 1, iter, x, h =>
    let dfx := df x
    let d2fx := d2f x
    let h' := h ++ [newtonRecOf f df d2f iter x]
    if |dfx| < tol then (x, h', false)
    else if |d2fx| < 1 / 10 ^ 12 then (x, h', true)
    else newtonLoop f df d2f tol fuel (iter + 1) (x - dfx / d2fx) h'

/-- newtonMethod (lines 67-98 of the unnamed component): run the loop and
return the last computed `x` with its objective value and the history. -/
def newtonMethod (f df d2f : α → α) (x0 tol : α) (maxIter : Nat) :
    SearchResult α (NewtonRecord α) :=
  let r := newtonLoop f df d2f tol maxIter 0 x0 []
  ⟨r.1, f r.1, r.2.1⟩

/-! ## Runners: the precondition checks of the run() handlers

Each component's run() handler validates its inputs and either starts the
search or alerts and returns without producing any Result; the alert path
is modelled as `none`. -/

/-- The run() handler of GoldenSectionOptimizer (GoldenSection.jsx lines
130-152): reject `¬(a < b)` before the search starts. -/
def runGoldenSection (phi : α) (f : α → α) (a b tol : α) (maxIter : Nat) :
    Option (SearchResult α (GoldenRecord α)) :=
  if ¬ a < b then none
  else some (goldenSectionSearch phi f a b tol maxIter)

/-- The run() handler of BisectionOptimizer (GoldenSection.jsx lines
561-591): reject `¬(a < b)`, then reject `f'(a) · f'(b) > 0`, before the
search starts. -/
def runBisection (f df : α → α) (a b tol : α) (maxIter : Nat) :
    Option (SearchResult α (BisRecord α)) :=
  if ¬ a < b then none
  else if df a * df b > 0 then none
  else some (bisectionMethod f df a b tol maxIter)

/-- The run() handler of FibonacciOptimizer (Fibonacci.jsx lines
143-168): reject `¬(a < b)`, then reject an iteration count below 2,
before the search starts. -/
def runFibonacci (f : α → α) (a b : α) (n : Nat) :
    Option (SearchResult α (FibRecord α)) :=
  if ¬ a < b then none
  else if n < 2 then none
  else some (fibonacciSearch f a b n)

/-! ## The custom-formula validator (parseCustomFunction)

The validator appears identically in all three components; the embedding
follows the copy at lines 30-65 of the unnamed component.  The host
compilation step (`new Function`) is outside the shallow embedding and is
abstracted as an oracle; everything up to it — the trim, the character
filter, and the textual rewriting — is embedded from the source. -/

/-- JavaScript String.prototype.trim over the character list: drop
leading and trailing whitespace. -/
def jsTrim (l : List Char) : List Char :=
  ((l.dropWhile Char.isWhitespace).reverse.dropWhile Char.isWhitespace).reverse

/-- The character class of the validation regex
`/^[x0-9+\-*/().\s,^sin|cos|tan|log|exp|sqrt|abs|pow|min|max]+$/`
(line 36 of the unnamed component).  Inside a regex character class the
function names contribute their individual letters and the alternation
bars are literal characters, so the class admits `x`, digits, whitespace,
the punctuation, the caret, the pipe, and the seventeen distinct letters
of the function names. -/
def allowedChar (c : Char) : Bool :=
  c.isDigit || c.isWhitespace ||
    ['x', '+', '-', '*', '/', '(', ')', '.', ',', '^', '|',
     's', 'i', 'n', 'c', 'o', 't', 'a', 'l', 'g', 'e', 'p', 'q', 'r',
     'b', 'w', 'm'].contains c

/-- The validation test of parseCustomFunction: the regex anchors to the
whole (already trimmed) string and its `+` quantifier demands at least
one character, so the test passes exactly when the string is nonempty and
every character is in the class. -/
def validChars (l : List Char) : Bool :=
  !l.isEmpty && l.all allowedChar

/-- The textual rewriting of parseCustomFunction (lines 42-53 of the
unnamed component): `^` becomes the host exponentiation operator and the
bare function names become their Math-qualified equivalents. -/
def processFunc (s : String) : String :=
  (((((((((((s.replace ("^") ("**")).replace ("sin(") ("Math.sin(")).replace
    ("cos(") ("Math.cos(")).replace ("tan(") ("Math.tan(")).replace
    ("log(") ("Math.log(")).replace ("exp(") ("Math.exp(")).replace
    ("sqrt(") ("Math.sqrt(")).replace ("abs(") ("Math.abs(")).replace
    ("pow(") ("Math.pow(")).replace ("min(") ("Math.min(")).replace
    ("max(") ("Math.max("))

/-- parseCustomFunction (lines 30-65 of the unnamed component), with the
host compilation abstracted: `host t x` is the value the compiled form of
the processed text `t` yields at `x`, or `none` where the host throws.
The function trims, validates the characters, rewrites, smoke-tests the
compiled callable once at `x = 1`, and fails (`none`, the thrown
InvalidExpression) when validation or the smoke test fails. -/
def parseCustomFunction (host : String → α → Option α) (s : String) :
    Option (α → Option α) :=
  let t := String.mk (jsTrim s.data)
  if validChars t.data then
    match host (processFunc t) 1 with
    | some _ => some (host (processFunc t))
    | none => none
  else none

/-- Modelled from the spec: the host compilation of the processed text of
the formula `x^2 - 4*x + 3` is absent from the repository (it happens
inside the JavaScript engine); per the spec's testable property the
compiled callable computes `x^2 - 4x + 3`, returning 0 at `x = 1`. -/
def compiledParabola (x : α) : α := x ^ 2 - 4 * x + 3

/-! ## The plot sampler (sampleData)

The sampler appears identically in the components; the embedding follows
Fibonacci.jsx lines 121-141.  The objective is taken as `α → JsNum α`:
the host numeric domain as the sampler observes it, a finite value, a
signed infinity, or NaN.  The source filter on a pair is
`typeof y === 'number' && !isNaN(y)`, which skips exactly the NaN values
and keeps the infinities.  (The matching check on the abscissa `x` never
fires for finite bounds, and the bounds are modelled as finite field
elements, so only the value filter is live.) -/

/-- A host number as the sampler sees one: a finite value, ±Infinity
(the Boolean is the sign), or NaN. -/
inductive JsNum (α : Type) where
  | num : α → JsNum α
  | inf : Bool → JsNum α
  | nan : JsNum α
  deriving DecidableEq

/-- JavaScript isNaN on a host number: true exactly of NaN — both
infinities pass the source's `!isNaN` filter. -/
def isNaN : JsNum α → Bool
  | .nan => true
  | _ => false

/-- `Number(v.toFixed(6))`: rounding to six decimal places. -/
def toFixed6 [FloorRing α] (v : α) : α := ((round (v * 10 ^ 6) : ℤ) : α) / 10 ^ 6

/-- `Number(v.toFixed(6))` on a host number: a finite value rounds to
six decimals; `Infinity.toFixed(6)` is the string "Infinity" and
`Number` of that string is Infinity again, so the infinities pass
through unchanged; NaN is never pushed. -/
def toFixed6Js [FloorRing α] : JsNum α → JsNum α
  | .num v => .num (toFixed6 v)
  | v => v

/-- One plotted point: the rounded abscissa and the rounded host value
there — which the source's NaN-only filter lets be ±Infinity. -/
structure Point (α : Type) where
  x : α
  y : JsNum α
  deriving DecidableEq

/-- sampleData (Fibonacci.jsx lines 121-141): 301 evenly spaced
abscissas over `[a, b]` (the fixed sample count is 300), each paired
with the objective value there, skipping exactly the pairs whose value
is NaN (the source tests `!isNaN`, so infinite values are kept), and
rounding both coordinates to six decimals; an invalid interval yields no
points. -/
def sampleData [FloorRing α] (f : α → JsNum α) (a b : α) : List (Point α) :=
  if a ≥ b then []
  else
    (List.range (300 + 1)).filterMap fun i : ℕ =>
      let x := a + ((i : α) / 300) * (b - a)
      let y := f x
      if isNaN y then none
      else some ⟨toFixed6 x, toFixed6Js y⟩

/-! ## Loop lemmas

The iteration loops only ever append to the history they are passed;
these lemmas make that explicit and derive the invariant-preservation,
record-property, chain and stopping facts the claim theorems build on. -/

theorem goldenLoop_append (f : α → α) (phi tol : α) :
    ∀ (fuel iter : Nat) (s : GoldenState α) (h : List (GoldenRecord α)),
      goldenLoop f phi tol fuel iter s h =
        ((goldenLoop f phi tol fuel iter s []).1,
          h ++ (goldenLoop f phi tol fuel iter s []).2) := by
  intro fuel
  induction fuel with
  | zero => intro iter s h; simp [goldenLoop]
  | succ n ih =>
    intro iter s h
    simp only [goldenLoop, List.nil_append]
    by_cases hc : |s.b - s.a| < tol
    · simp [hc]
    · simp only [hc, if_false]
      rw [ih (iter + 1) _ (h ++ [goldenRecOf iter s]),
        ih (iter + 1) _ [goldenRecOf iter s]]
      simp

theorem goldenLoop_state (f : α → α) (phi tol : α) (p : GoldenState α → Prop)
    (hp : ∀ s, p s → p (goldenStep f phi s)) :
    ∀ (fuel iter : Nat) (s : GoldenState α) (h : List (GoldenRecord α)),
      p s → p (goldenLoop f phi tol fuel iter s h).1 := by
  intro fuel
  induction fuel with
  | zero => intro iter s h hs; simpa [goldenLoop] using hs
  | succ n ih =>
    intro iter s h hs
    simp only [goldenLoop]
    by_cases hc : |s.b - s.a| < tol
    · simpa [hc] using hs
    · simpa [hc] using ih _ _ _ (hp s hs)

theorem goldenLoop_records (f : α → α) (phi tol : α)
    (p : GoldenState α → Prop) (q : GoldenRecord α → Prop)
    (hp : ∀ s, p s → p (goldenStep f phi s))
    (hq : ∀ (i : Nat) (s : GoldenState α), p s → q (goldenRecOf i s)) :
    ∀ (fuel iter : Nat) (s : GoldenState α), p s →
      ∀ r ∈ (goldenLoop f phi tol fuel iter s []).2, q r := by
  intro fuel
  induction fuel with
  | zero => intro iter s _ r hr; simp [goldenLoop] at hr
  | succ n ih =>
    intro iter s hs r hr
    simp only [goldenLoop, List.nil_append] at hr
    by_cases hc : |s.b - s.a| < tol
    · simp [hc] at hr
      exact hr ▸ hq iter s hs
    · simp only [hc, if_false] at hr
      rw [goldenLoop_append] at hr
      rcases List.mem_append.1 hr with hr | hr
      · simp at hr
        exact hr ▸ hq iter s hs
      · exact ih _ _ (hp s hs) r hr

theorem goldenLoop_head (f : α → α) (phi tol : α) (fuel iter : Nat)
    (s : GoldenState α) :
    (goldenLoop f phi tol (fuel + 1) iter s []).2.head? =
      some (goldenRecOf iter s) := by
  simp only [goldenLoop, List.nil_append]
  by_cases hc : |s.b - s.a| < tol
  · simp [hc]
  · simp only [hc, if_false]
    rw [goldenLoop_append]
    simp

theorem goldenLoop_chain (f : α → α) (phi tol : α)
    (p : GoldenState α → Prop) (R : GoldenRecord α → GoldenRecord α → Prop)
    (hp : ∀ s, p s → p (goldenStep f phi s))
    (hR : ∀ (i : Nat) (s : GoldenState α), p s → ¬ |s.b - s.a| < tol →
      R (goldenRecOf i s) (goldenRecOf (i + 1) (goldenStep f phi s))) :
    ∀ (fuel iter : Nat) (s : GoldenState α), p s →
      List.Chain' R (goldenLoop f phi tol fuel iter s []).2 := by
  intro fuel
  induction fuel with
  | zero => intro iter s _; simp [goldenLoop]
  | succ n ih =>
    intro iter s hs
    simp only [goldenLoop, List.nil_append]
    by_cases hc : |s.b - s.a| < tol
    · simp [hc]
    · simp only [hc, if_false]
      rw [goldenLoop_append]
      simp only [List.singleton_append]
      refine List.chain'_cons'.2 ⟨?_, ih _ _ (hp s hs)⟩
      intro r hr
      cases n with
      | zero => simp [goldenLoop] at hr
      | succ m =>
        rw [goldenLoop_head] at hr
        simp at hr
        exact hr ▸ hR iter s hs hc

theorem goldenLoop_stop (f : α → α) (phi tol : α) :
    ∀ (fuel iter : Nat) (s : GoldenState α) (h : List (GoldenRecord α)),
      (goldenLoop f phi tol fuel iter s h).2.length < h.length + fuel →
      ∃ last, (goldenLoop f phi tol fuel iter s h).2.getLast? = some last ∧
        |last.b - last.a| < tol := by
  intro fuel
  induction fuel with
  | zero => intro iter s h hl; simp [goldenLoop] at hl
  | succ n ih =>
    intro iter s h hl
    simp only [goldenLoop] at hl ⊢
    by_cases hc : |s.b - s.a| < tol
    · refine ⟨goldenRecOf iter s, ?_, hc⟩
      rw [if_pos hc]
      simp
    · simp only [hc, if_false] at hl ⊢
      refine ih (iter + 1) (goldenStep f phi s) (h ++ [goldenRecOf iter s]) ?_
      simp only [List.length_append, List.length_singleton]
      omega

theorem goldenLoop_length_le (f : α → α) (phi tol : α) :
    ∀ (fuel iter : Nat) (s : GoldenState α) (h : List (GoldenRecord α)),
      (goldenLoop f phi tol fuel iter s h).2.length ≤ h.length + fuel := by
  intro fuel
  induction fuel with
  | zero => intro iter s h; simp [goldenLoop]
  | succ n ih =>
    intro iter s h
    simp only [goldenLoop]
    by_cases hc : |s.b - s.a| < tol
    · simp [hc]
    · simp only [hc, if_false]
      have := ih (iter + 1) (goldenStep f phi s) (h ++ [goldenRecOf iter s])
      simp only [List.length_append, List.length_singleton] at this
      omega

theorem fibLoop_length (f : α → α) :
    ∀ (fuel iter : Nat) (s : FibState α) (h : List (FibRecord α)),
      (fibLoop f fuel iter s h).2.length = h.length + fuel := by
  intro fuel
  induction fuel with
  | zero => intro iter s h; simp [fibLoop]
  | succ n ih =>
    intro iter s h
    simp only [fibLoop]
    have := ih (iter + 1) (fibStep f s) (h ++ [fibRecOf iter s])
    simp only [List.length_append, List.length_singleton] at this
    omega

theorem bisLoop_append (f df : α → α) (tol : α) :
    ∀ (fuel iter : Nat) (a b : α) (h : List (BisRecord α)),
      bisLoop f df tol fuel iter a b h =
        ((bisLoop f df tol fuel iter a b []).1,
          h ++ (bisLoop f df tol fuel iter a b []).2) := by
  intro fuel
  induction fuel with
  | zero => intro iter a b h; simp [bisLoop]
  | succ n ih =>
    intro iter a b h
    simp only [bisLoop, List.nil_append]
    by_cases hc : |df ((a + b) / 2)| < tol ∨ |b - a| < tol
    · simp [hc]
    · simp only [hc, if_false]
      by_cases hd : df ((a + b) / 2) > 0
      · simp only [hd, if_true]
        rw [ih (iter + 1) a ((a + b) / 2) (h ++ [bisRecOf f df iter a b]),
          ih (iter + 1) a ((a + b) / 2) [bisRecOf f df iter a b]]
        simp
      · simp only [hd, if_false]
        rw [ih (iter + 1) ((a + b) / 2) b (h ++ [bisRecOf f df iter a b]),
          ih (iter + 1) ((a + b) / 2) b [bisRecOf f df iter a b]]
        simp

theorem bisLoop_state (f df : α → α) (tol : α) (p : α → α → Prop)
    (hp1 : ∀ a b, p a b → 0 < df ((a + b) / 2) → p a ((a + b) / 2))
    (hp2 : ∀ a b, p a b → ¬ 0 < df ((a + b) / 2) → p ((a + b) / 2) b) :
    ∀ (fuel iter : Nat) (a b : α) (h : List (BisRecord α)),
      p a b → p (bisLoop f df tol fuel iter a b h).1.1
        (bisLoop f df tol fuel iter a b h).1.2 := by
  intro fuel
  induction fuel with
  | zero => intro iter a b h hab; simpa [bisLoop] using hab
  | succ n ih =>
    intro iter a b h hab
    simp only [bisLoop]
    by_cases hc : |df ((a + b) / 2)| < tol ∨ |b - a| < tol
    · simpa [hc] using hab
    · simp only [hc, if_false]
      by_cases hd : df ((a + b) / 2) > 0
      · simpa [hd] using ih _ _ _ _ (hp1 a b hab hd)
      · simpa [hd] using ih _ _ _ _ (hp2 a b hab hd)

theorem bisLoop_records (f df : α → α) (tol : α)
    (p : α → α → Prop) (q : BisRecord α → Prop)
    (hp1 : ∀ a b, p a b → 0 < df ((a + b) / 2) → p a ((a + b) / 2))
    (hp2 : ∀ a b, p a b → ¬ 0 < df ((a + b) / 2) → p ((a + b) / 2) b)
    (hq : ∀ (i : Nat) (a b : α), p a b → q (bisRecOf f df i a b)) :
    ∀ (fuel iter : Nat) (a b : α), p a b →
      ∀ r ∈ (bisLoop f df tol fuel iter a b []).2, q r := by
  intro fuel
  induction fuel with
  | zero => intro iter a b _ r hr; simp [bisLoop] at hr
  | succ n ih =>
    intro iter a b hab r hr
    simp only [bisLoop, List.nil_append] at hr
    by_cases hc : |df ((a + b) / 2)| < tol ∨ |b - a| < tol
    · simp [hc] at hr
      exact hr ▸ hq iter a b hab
    · simp only [hc, if_false] at hr
      by_cases hd : df ((a + b) / 2) > 0
      · simp only [hd, if_true] at hr
        rw [bisLoop_append] at hr
        rcases List.mem_append.1 hr with hr | hr
        · simp at hr
          exact hr ▸ hq iter a b hab
        · exact ih _ _ _ (hp1 a b hab hd) r hr
      · simp only [hd, if_false] at hr
        rw [bisLoop_append] at hr
        rcases List.mem_append.1 hr with hr | hr
        · simp at hr
          exact hr ▸ hq iter a b hab
        · exact ih _ _ _ (hp2 a b hab hd) r hr

theorem bisLoop_head (f df : α → α) (tol : α) (fuel iter : Nat) (a b : α) :
    (bisLoop f df tol (fuel + 1) iter a b []).2.head? =
      some (bisRecOf f df iter a b) := by
  simp only [bisLoop, List.nil_append]
  by_cases hc : |df ((a + b) / 2)| < tol ∨ |b - a| < tol
  · simp [hc]
  · simp only [hc, if_false]
    by_cases hd : df ((a + b) / 2) > 0
    · simp only [hd, if_true]
      rw [bisLoop_append]
      simp
    · simp only [hd, if_false]
      rw [bisLoop_append]
      simp

theorem bisLoop_chain (f df : α → α) (tol : α)
    (p : α → α → Prop) (R : BisRecord α → BisRecord α → Prop)
    (hp1 : ∀ a b, p a b → 0 < df ((a + b) / 2) → p a ((a + b) / 2))
    (hp2 : ∀ a b, p a b → ¬ 0 < df ((a + b) / 2) → p ((a + b) / 2) b)
    (hR1 : ∀ (i : Nat) (a b : α), p a b → 0 < df ((a + b) / 2) →
      R (bisRecOf f df i a b) (bisRecOf f df (i + 1) a ((a + b) / 2)))
    (hR2 : ∀ (i : Nat) (a b : α), p a b → ¬ 0 < df ((a + b) / 2) →
      R (bisRecOf f df i a b) (bisRecOf f df (i + 1) ((a + b) / 2) b)) :
    ∀ (fuel iter : Nat) (a b : α), p a b →
      List.Chain' R (bisLoop f df tol fuel iter a b []).2 := by
  intro fuel
  induction fuel with
  | zero => intro iter a b _; simp [bisLoop]
  | succ n ih =>
    intro iter a b hab
    simp only [bisLoop, List.nil_append]
    by_cases hc : |df ((a + b) / 2)| < tol ∨ |b - a| < tol
    · simp [hc]
    · simp only [hc, if_false]
      by_cases hd : df ((a + b) / 2) > 0
      · simp only [hd, if_true]
        rw [bisLoop_append]
        simp only [List.singleton_append]
        refine List.chain'_cons'.2 ⟨?_, ih _ _ _ (hp1 a b hab hd)⟩
        intro r hr
        cases n with
        | zero => simp [bisLoop] at hr
        | succ m =>
          rw [bisLoop_head] at hr
          simp at hr
          exact hr ▸ hR1 iter a b hab hd
      · simp only [hd, if_false]
        rw [bisLoop_append]
        simp only [List.singleton_append]
        refine List.chain'_cons'.2 ⟨?_, ih _ _ _ (hp2 a b hab hd)⟩
        intro r hr
        cases n with
        | zero => simp [bisLoop] at hr
        | succ m =>
          rw [bisLoop_head] at hr
          simp at hr
          exact hr ▸ hR2 iter a b hab hd

theorem bisLoop_stop (f df : α → α) (tol : α) :
    ∀ (fuel iter : Nat) (a b : α) (h : List (BisRecord α)),
      (bisLoop f df tol fuel iter a b h).2.length < h.length + fuel →
      ∃ last, (bisLoop f df tol fuel iter a b h).2.getLast? = some last ∧
        (|last.dfc| < tol ∨ |last.b - last.a| < tol) := by
  intro fuel
  induction fuel with
  | zero => intro iter a b h hl; simp [bisLoop] at hl
  | succ n ih =>
    intro iter a b h hl
    simp only [bisLoop] at hl ⊢
    by_cases hc : |df ((a + b) / 2)| < tol ∨ |b - a| < tol
    · refine ⟨bisRecOf f df iter a b, ?_, hc⟩
      rw [if_pos hc]
      simp
    · simp only [hc, if_false] at hl ⊢
      by_cases hd : df ((a + b) / 2) > 0
      · simp only [hd, if_true] at hl ⊢
        refine ih (iter + 1) a ((a + b) / 2) (h ++ [bisRecOf f df iter a b]) ?_
        simp only [List.length_append, List.length_singleton]
        omega
      · simp only [hd, if_false] at hl ⊢
        refine ih (iter + 1) ((a + b) / 2) b (h ++ [bisRecOf f df iter a b]) ?_
        simp only [List.length_append, List.length_singleton]
        omega

theorem newtonLoop_append (f df d2f : α → α) (tol : α) :
    ∀ (fuel iter : Nat) (x : α) (h : List (NewtonRecord α)),
      newtonLoop f df d2f tol fuel iter x h =
        ((newtonLoop f df d2f tol fuel iter x []).1,
          h ++ (newtonLoop f df d2f tol fuel iter x []).2.1,
          (newtonLoop f df d2f tol fuel iter x []).2.2) := by
  intro fuel
  induction fuel with
  | zero => intro iter x h; simp [newtonLoop]
  | succ n ih =>
    intro iter x h
    simp only [newtonLoop, List.nil_append]
    by_cases hc : |df x| < tol
    · simp [hc]
    · rw [if_neg hc, if_neg hc]
      by_cases hd : |d2f x| < 1 / 10 ^ 12
      · rw [if_pos hd, if_pos hd]
      · rw [if_neg hd, if_neg hd]
        rw [ih (iter + 1) _ (h ++ [newtonRecOf f df d2f iter x]),
          ih (iter + 1) _ [newtonRecOf f df d2f iter x]]
        simp

theorem newtonLoop_records (f df d2f : α → α) (tol : α)
    (q : NewtonRecord α → Prop)
    (hq : ∀ (i : Nat) (x : α), q (newtonRecOf f df d2f i x)) :
    ∀ (fuel iter : Nat) (x : α),
      ∀ r ∈ (newtonLoop f df d2f tol fuel iter x []).2.1, q r := by
  intro fuel
  induction fuel with
  | zero => intro iter x r hr; simp [newtonLoop] at hr
  | succ n ih =>
    intro iter x r hr
    simp only [newtonLoop, List.nil_append] at hr
    by_cases hc : |df x| < tol
    · simp [hc] at hr
      exact hr ▸ hq iter x
    · rw [if_neg hc] at hr
      by_cases hd : |d2f x| < 1 / 10 ^ 12
      · rw [if_pos hd] at hr
        simp at hr
        exact hr ▸ hq iter x
      · rw [if_neg hd] at hr
        rw [newtonLoop_append] at hr
        rcases List.mem_append.1 hr with hr | hr
        · simp at hr
          exact hr ▸ hq iter x
        · exact ih _ _ r hr

theorem newtonLoop_head (f df d2f : α → α) (tol : α) (fuel iter : Nat)
    (x : α) :
    (newtonLoop f df d2f tol (fuel + 1) iter x []).2.1.head? =
      some (newtonRecOf f df d2f iter x) := by
  simp only [newtonLoop, List.nil_append]
  by_cases hc : |df x| < tol
  · simp [hc]
  · rw [if_neg hc]
    by_cases hd : |d2f x| < 1 / 10 ^ 12
    · rw [if_pos hd]
      simp
    · rw [if_neg hd]
      rw [newtonLoop_append]
      simp

theorem newtonLoop_chain (f df d2f : α → α) (tol : α)
    (R : NewtonRecord α → NewtonRecord α → Prop)
    (hR : ∀ (i : Nat) (x : α),
      R (newtonRecOf f df d2f i x)
        (newtonRecOf f df d2f (i + 1) (x - df x / d2f x))) :
    ∀ (fuel iter : Nat) (x : α),
      List.Chain' R (newtonLoop f df d2f tol fuel iter x []).2.1 := by
  intro fuel
  induction fuel with
  | zero => intro iter x; simp [newtonLoop]
  | succ n ih =>
    intro iter x
    simp only [newtonLoop, List.nil_append]
    by_cases hc : |df x| < tol
    · simp [hc]
    · rw [if_neg hc]
      by_cases hd : |d2f x| < 1 / 10 ^ 12
      · rw [if_pos hd]
        simp
      · rw [if_neg hd]
        rw [newtonLoop_append]
        simp only [List.singleton_append]
        refine List.chain'_cons'.2 ⟨?_, ih _ _⟩
        intro r hr
        cases n with
        | zero => simp [newtonLoop] at hr
        | succ m =>
          rw [newtonLoop_head] at hr
          simp at hr
          exact hr ▸ hR iter x

theorem newtonLoop_stall (f df d2f : α → α) (tol : α) :
    ∀ (fuel iter : Nat) (x : α) (h : List (NewtonRecord α)),
      (newtonLoop f df d2f tol fuel iter x h).2.2 = true →
      ∃ last, (newtonLoop f df d2f tol fuel iter x h).2.1.getLast? = some last ∧
        ¬ |last.dfx| < tol ∧ |last.d2fx| < 1 / 10 ^ 12 ∧
        (newtonLoop f df d2f tol fuel iter x h).1 = last.x := by
  intro fuel
  induction fuel with
  | zero => intro iter x h hst; simp [newtonLoop] at hst
  | succ n ih =>
    intro iter x h hst
    simp only [newtonLoop] at hst ⊢
    by_cases hc : |df x| < tol
    · simp [hc] at hst
    · rw [if_neg hc] at hst ⊢
      by_cases hd : |d2f x| < 1 / 10 ^ 12
      · rw [if_pos hd] at hst ⊢
        exact ⟨newtonRecOf f df d2f iter x, by simp,
          by simpa [newtonRecOf] using hc, by simpa [newtonRecOf] using hd, rfl⟩
      · rw [if_neg hd] at hst ⊢
        exact ih (iter + 1) (x - df x / d2f x)
          (h ++ [newtonRecOf f df d2f iter x]) hst

/-! ## The golden ratio -/

theorem golden_phi_sq : ((1 + Real.sqrt 5) / 2) ^ 2 = (1 + Real.sqrt 5) / 2 + 1 := by
  have h : Real.sqrt 5 ^ 2 = 5 := Real.sq_sqrt (by norm_num)
  nlinarith [h]

theorem golden_phi_gt_one : 1 < (1 + Real.sqrt 5) / 2 := by
  nlinarith [Real.sq_sqrt (show (0:ℝ) ≤ 5 by norm_num), Real.sqrt_nonneg 5]

/-! ## The golden-section geometric invariant -/

/-- The geometric invariant of a golden-section state: both interior
points sit at the golden positions of the current bracket and the cached
values are the objective there.  It holds of the initial state by
construction and is preserved by each step because `phi ^ 2 = phi + 1`. -/
def GoldenInv (f : α → α) (phi : α) (s : GoldenState α) : Prop :=
  s.c = s.b - (s.b - s.a) / phi ∧ s.d = s.a + (s.b - s.a) / phi ∧
    s.fc = f s.c ∧ s.fd = f s.d

theorem goldenStep_inv (f : α → α) (phi : α) (hsq : phi ^ 2 = phi + 1)
    (hpos : 0 < phi) (s : GoldenState α) (hs : GoldenInv f phi s) :
    GoldenInv f phi (goldenStep f phi s) := by
  obtain ⟨hc, hd, hfc, hfd⟩ := hs
  have hne : phi ≠ 0 := ne_of_gt hpos
  unfold goldenStep
  by_cases hlt : s.fc < s.fd
  · simp only [hlt, if_true]
    refine ⟨rfl, ?_, rfl, hfc⟩
    rw [hc, hd]
    field_simp
    ring_nf
    linear_combination phi * (s.b - s.a) * hsq
  · simp only [hlt, if_false]
    refine ⟨?_, rfl, hfd, rfl⟩
    rw [hc, hd]
    field_simp
    ring_nf
    linear_combination phi * (s.a - s.b) * hsq

theorem goldenStep_nest (f : α → α) (phi : α) (hphi : 1 < phi)
    (s : GoldenState α) (hinv : GoldenInv f phi s) (hab : s.a < s.b) :
    s.a ≤ (goldenStep f phi s).a ∧ (goldenStep f phi s).b ≤ s.b ∧
    (goldenStep f phi s).a < (goldenStep f phi s).b ∧
    (s.a < (goldenStep f phi s).a ∨ (goldenStep f phi s).b < s.b) := by
  obtain ⟨hc, hd, -, -⟩ := hinv
  have hba : 0 < s.b - s.a := sub_pos.2 hab
  have hdiv : 0 < (s.b - s.a) / phi :=
    div_pos hba (lt_trans zero_lt_one hphi)
  have hlt' : (s.b - s.a) / phi < s.b - s.a := div_lt_self hba hphi
  unfold goldenStep
  by_cases hlt : s.fc < s.fd
  · simp only [hlt, if_true]
    refine ⟨le_refl _, ?_, ?_, Or.inr ?_⟩ <;> rw [hd] <;> linarith
  · simp only [hlt, if_false]
    refine ⟨?_, le_refl _, ?_, Or.inl ?_⟩ <;> rw [hc] <;> linarith

/-! ## Claim C2: the golden-section contract -/

/-- The initial state goldenSectionSearch builds: the bracket with the
two golden interior points `c = b - (b-a)/phi`, `d = a + (b-a)/phi` and
the objective evaluated at both. -/
def goldenInit (f : α → α) (phi a b : α) : GoldenState α :=
  ⟨a, b, b - (b - a) / phi, a + (b - a) / phi,
    f (b - (b - a) / phi), f (a + (b - a) / phi)⟩

/-- What claim C2 asserts of one goldenSectionSearch run at
`phi = (1 + sqrt 5) / 2`: the result is the midpoint of the loop's final
bracket with the objective there (in every terminal case, budget
exhaustion included); every recorded step keeps its interior points at
the golden positions of its bracket with the cached objective values;
consecutive records keep the side chosen by the strict comparison
`fc < fd`, reusing the surviving interior evaluation; at most `maxIter`
records are produced; and a run that stops below the budget does so
because its last recorded bracket satisfies `|b - a| < tol`. -/
def GoldenSpec (f : ℝ → ℝ) (a b tol : ℝ) (maxIter : ℕ) : Prop :=
  (goldenSectionSearch ((1 + Real.sqrt 5) / 2) f a b tol maxIter).xOpt =
      ((goldenLoop f ((1 + Real.sqrt 5) / 2) tol maxIter 0
          (goldenInit f ((1 + Real.sqrt 5) / 2) a b) []).1.a +
        (goldenLoop f ((1 + Real.sqrt 5) / 2) tol maxIter 0
          (goldenInit f ((1 + Real.sqrt 5) / 2) a b) []).1.b) / 2 ∧
  (goldenSectionSearch ((1 + Real.sqrt 5) / 2) f a b tol maxIter).fOpt =
    f (goldenSectionSearch ((1 + Real.sqrt 5) / 2) f a b tol maxIter).xOpt ∧
  (∀ rec ∈ (goldenSectionSearch ((1 + Real.sqrt 5) / 2) f a b tol maxIter).history,
    rec.c = rec.b - (rec.b - rec.a) / ((1 + Real.sqrt 5) / 2) ∧
    rec.d = rec.a + (rec.b - rec.a) / ((1 + Real.sqrt 5) / 2) ∧
    rec.fc = f rec.c ∧ rec.fd = f rec.d) ∧
  List.Chain' (fun r1 r2 =>
      ¬ |r1.b - r1.a| < tol ∧
      (r1.fc < r1.fd →
        r2.a = r1.a ∧ r2.b = r1.d ∧ r2.d = r1.c ∧ r2.fd = r1.fc) ∧
      (¬ r1.fc < r1.fd →
        r2.a = r1.c ∧ r2.b = r1.b ∧ r2.c = r1.d ∧ r2.fc = r1.fd))
    (goldenSectionSearch ((1 + Real.sqrt 5) / 2) f a b tol maxIter).history ∧
  (goldenSectionSearch ((1 + Real.sqrt 5) / 2) f a b tol maxIter).history.length ≤
    maxIter ∧
  ((goldenSectionSearch ((1 + Real.sqrt 5) / 2) f a b tol maxIter).history.length <
      maxIter →
    ∃ last, (goldenSectionSearch ((1 + Real.sqrt 5) / 2) f a b tol
        maxIter).history.getLast? = some last ∧ |last.b - last.a| < tol)

/-- C2: for every objective, bracket `a < b`, tolerance `tol > 0` and
iteration budget, golden-section search places its interior points at
`c = b - (b-a)/phi` and `d = a + (b-a)/phi` with `phi = (1 + sqrt 5)/2`,
keeps the side with the smaller objective value reusing one interior
evaluation per step, stops when `|b - a| < tol` or when the budget is
exhausted, and in every terminal case returns the midpoint of the final
bracket as xOpt with `fOpt = f xOpt`. -/
theorem goldenSectionSearch_spec (f : ℝ → ℝ) (a b tol : ℝ) (maxIter : ℕ)
    (hab : a < b) (htol : 0 < tol) : GoldenSpec f a b tol maxIter := by
  have hsq := golden_phi_sq
  have hpos : (0:ℝ) < (1 + Real.sqrt 5) / 2 :=
    lt_trans zero_lt_one golden_phi_gt_one
  have hinit : GoldenInv f ((1 + Real.sqrt 5) / 2)
      (goldenInit f ((1 + Real.sqrt 5) / 2) a b) := ⟨rfl, rfl, rfl, rfl⟩
  refine ⟨rfl, rfl, ?_, ?_, ?_, ?_⟩
  · intro rec hrec
    have := goldenLoop_records f ((1 + Real.sqrt 5) / 2) tol
      (GoldenInv f ((1 + Real.sqrt 5) / 2))
      (fun r => r.c = r.b - (r.b - r.a) / ((1 + Real.sqrt 5) / 2) ∧
        r.d = r.a + (r.b - r.a) / ((1 + Real.sqrt 5) / 2) ∧
        r.fc = f r.c ∧ r.fd = f r.d)
      (fun s hs => goldenStep_inv f _ hsq hpos s hs)
      (fun i s hs => hs)
      maxIter 0 (goldenInit f ((1 + Real.sqrt 5) / 2) a b) hinit rec hrec
    exact this
  · exact goldenLoop_chain f ((1 + Real.sqrt 5) / 2) tol (fun _ => True) _
      (fun _ _ => trivial)
      (fun i s _ hstop => by
        refine ⟨hstop, fun hlt => ?_, fun hlt => ?_⟩ <;>
        · simp only [goldenRecOf] at hlt
          simp [goldenRecOf, goldenStep, hlt])
      maxIter 0 (goldenInit f ((1 + Real.sqrt 5) / 2) a b) trivial
  · simpa using goldenLoop_length_le f ((1 + Real.sqrt 5) / 2) tol maxIter 0
      (goldenInit f ((1 + Real.sqrt 5) / 2) a b) []
  · intro hshort
    refine goldenLoop_stop f ((1 + Real.sqrt 5) / 2) tol maxIter 0
      (goldenInit f ((1 + Real.sqrt 5) / 2) a b) [] ?_
    simpa using hshort

/-- Witness for C2: a concrete run with `a = 0 < 1 = b`, `tol = 1`,
budget 5. -/
theorem goldenSectionSearch_spec_witness :
    ((0:ℝ) < 1) ∧ GoldenSpec (fun x => x) 0 1 1 5 :=
  ⟨zero_lt_one,
    goldenSectionSearch_spec (fun x => x) 0 1 1 5 zero_lt_one zero_lt_one⟩

/-! ## Claim C10: bracket nesting -/

/-- What claim C10 asserts: started from `a < b`, both bracket loops
produce only brackets nested inside `[a, b]` that still satisfy
`a' < b'`, each recorded bracket is a strict sub-interval of its
predecessor, and the returned optimum lies inside the initial bracket. -/
def NestingSpec (f df : ℝ → ℝ) (a b tol : ℝ) (maxIter : ℕ) : Prop :=
  (a ≤ (goldenSectionSearch ((1 + Real.sqrt 5) / 2) f a b tol maxIter).xOpt ∧
    (goldenSectionSearch ((1 + Real.sqrt 5) / 2) f a b tol maxIter).xOpt ≤ b ∧
    (∀ rec ∈ (goldenSectionSearch ((1 + Real.sqrt 5) / 2) f a b tol
        maxIter).history, a ≤ rec.a ∧ rec.a < rec.b ∧ rec.b ≤ b) ∧
    List.Chain' (fun r1 r2 =>
        r1.a ≤ r2.a ∧ r2.b ≤ r1.b ∧ (r1.a < r2.a ∨ r2.b < r1.b))
      (goldenSectionSearch ((1 + Real.sqrt 5) / 2) f a b tol maxIter).history) ∧
  (a ≤ (bisectionMethod f df a b tol maxIter).xOpt ∧
    (bisectionMethod f df a b tol maxIter).xOpt ≤ b ∧
    (∀ rec ∈ (bisectionMethod f df a b tol maxIter).history,
      a ≤ rec.a ∧ rec.a < rec.b ∧ rec.b ≤ b) ∧
    List.Chain' (fun r1 r2 =>
        r1.a ≤ r2.a ∧ r2.b ≤ r1.b ∧ (r1.a < r2.a ∨ r2.b < r1.b))
      (bisectionMethod f df a b tol maxIter).history)

/-- C10: for golden-section search (at `phi = (1 + sqrt 5)/2`) and
bisection-on-derivative started with `a < b`, every iteration replaces
the bracket by a strict sub-interval still satisfying `a < b`, the
recorded brackets are nested inside the initial one, and the returned
xOpt lies within the initial `[a, b]`. -/
theorem bracket_nesting (f df : ℝ → ℝ) (a b tol : ℝ) (maxIter : ℕ)
    (hab : a < b) : NestingSpec f df a b tol maxIter := by
  have hsq := golden_phi_sq
  have hone := golden_phi_gt_one
  have hpos : (0:ℝ) < (1 + Real.sqrt 5) / 2 := lt_trans zero_lt_one hone
  constructor
  · -- golden-section half
    set phi : ℝ := (1 + Real.sqrt 5) / 2 with hphi
    have hp : ∀ s : GoldenState ℝ,
        (GoldenInv f phi s ∧ a ≤ s.a ∧ s.a < s.b ∧ s.b ≤ b) →
        GoldenInv f phi (goldenStep f phi s) ∧
          a ≤ (goldenStep f phi s).a ∧
          (goldenStep f phi s).a < (goldenStep f phi s).b ∧
          (goldenStep f phi s).b ≤ b := by
      intro s hs
      obtain ⟨hinv, hsa, hsab, hsb⟩ := hs
      obtain ⟨n1, n2, n3, -⟩ := goldenStep_nest f phi hone s hinv hsab
      exact ⟨goldenStep_inv f phi hsq hpos s hinv, le_trans hsa n1, n3,
        le_trans n2 hsb⟩
    have hinit : GoldenInv f phi (goldenInit f phi a b) ∧
        a ≤ (goldenInit f phi a b).a ∧
        (goldenInit f phi a b).a < (goldenInit f phi a b).b ∧
        (goldenInit f phi a b).b ≤ b :=
      ⟨⟨rfl, rfl, rfl, rfl⟩, le_refl a, hab, le_refl b⟩
    have hst := goldenLoop_state f phi tol
      (fun s => GoldenInv f phi s ∧ a ≤ s.a ∧ s.a < s.b ∧ s.b ≤ b)
      hp maxIter 0 (goldenInit f phi a b) [] hinit
    obtain ⟨-, h1, h2, h3⟩ := hst
    refine ⟨?_, ?_, ?_, ?_⟩
    · show a ≤ ((goldenLoop f phi tol maxIter 0 (goldenInit f phi a b)
        []).1.a + (goldenLoop f phi tol maxIter 0 (goldenInit f phi a b)
        []).1.b) / 2
      linarith
    · show ((goldenLoop f phi tol maxIter 0 (goldenInit f phi a b)
        []).1.a + (goldenLoop f phi tol maxIter 0 (goldenInit f phi a b)
        []).1.b) / 2 ≤ b
      linarith
    · exact goldenLoop_records f phi tol
        (fun s => GoldenInv f phi s ∧ a ≤ s.a ∧ s.a < s.b ∧ s.b ≤ b)
        (fun rec => a ≤ rec.a ∧ rec.a < rec.b ∧ rec.b ≤ b)
        hp (fun i s hs => ⟨hs.2.1, hs.2.2.1, hs.2.2.2⟩)
        maxIter 0 (goldenInit f phi a b) hinit
    · exact goldenLoop_chain f phi tol
        (fun s => GoldenInv f phi s ∧ a ≤ s.a ∧ s.a < s.b ∧ s.b ≤ b)
        (fun r1 r2 => r1.a ≤ r2.a ∧ r2.b ≤ r1.b ∧ (r1.a < r2.a ∨ r2.b < r1.b))
        hp
        (fun i s hs _ => by
          obtain ⟨n1, n2, -, n4⟩ :=
            goldenStep_nest f phi hone s hs.1 hs.2.2.1
          exact ⟨n1, n2, n4⟩)
        maxIter 0 (goldenInit f phi a b) hinit
  · -- bisection half
    have hp1 : ∀ a' b' : ℝ, (a ≤ a' ∧ a' < b' ∧ b' ≤ b) →
        0 < df ((a' + b') / 2) →
        a ≤ a' ∧ a' < (a' + b') / 2 ∧ (a' + b') / 2 ≤ b := by
      intro a' b' h _
      exact ⟨h.1, by linarith [h.2.1], by linarith [h.2.1, h.2.2]⟩
    have hp2 : ∀ a' b' : ℝ, (a ≤ a' ∧ a' < b' ∧ b' ≤ b) →
        ¬ 0 < df ((a' + b') / 2) →
        a ≤ (a' + b') / 2 ∧ (a' + b') / 2 < b' ∧ b' ≤ b := by
      intro a' b' h _
      exact ⟨by linarith [h.1, h.2.1], by linarith [h.2.1], h.2.2⟩
    have hinit : a ≤ a ∧ a < b ∧ b ≤ b := ⟨le_refl a, hab, le_refl b⟩
    have hst := bisLoop_state f df tol (fun a' b' => a ≤ a' ∧ a' < b' ∧ b' ≤ b)
      hp1 hp2 maxIter 0 a b [] hinit
    obtain ⟨h1, h2, h3⟩ := hst
    refine ⟨?_, ?_, ?_, ?_⟩
    · show a ≤ ((bisLoop f df tol maxIter 0 a b []).1.1 +
        (bisLoop f df tol maxIter 0 a b []).1.2) / 2
      linarith
    · show ((bisLoop f df tol maxIter 0 a b []).1.1 +
        (bisLoop f df tol maxIter 0 a b []).1.2) / 2 ≤ b
      linarith
    · exact bisLoop_records f df tol
        (fun a' b' => a ≤ a' ∧ a' < b' ∧ b' ≤ b)
        (fun rec => a ≤ rec.a ∧ rec.a < rec.b ∧ rec.b ≤ b)
        hp1 hp2 (fun i a' b' h => h) maxIter 0 a b hinit
    · exact bisLoop_chain f df tol
        (fun a' b' => a ≤ a' ∧ a' < b' ∧ b' ≤ b)
        (fun r1 r2 => r1.a ≤ r2.a ∧ r2.b ≤ r1.b ∧ (r1.a < r2.a ∨ r2.b < r1.b))
        hp1 hp2
        (fun i a' b' h _ => by
          simp only [bisRecOf]
          exact ⟨le_refl a', by linarith [h.2.1], Or.inr (by linarith [h.2.1])⟩)
        (fun i a' b' h _ => by
          simp only [bisRecOf]
          exact ⟨by linarith [h.2.1], le_refl b', Or.inl (by linarith [h.2.1])⟩)
        maxIter 0 a b hinit

/-- Witness for C10: a concrete run with `a = 0 < 1 = b`. -/
theorem bracket_nesting_witness :
    ((0:ℝ) < 1) ∧ NestingSpec (fun x => x) (fun _ => 1) 0 1 1 5 :=
  ⟨zero_lt_one,
    bracket_nesting (fun x => x) (fun _ => 1) 0 1 1 5 zero_lt_one⟩

/-! ## Claim C3: the bisection-on-derivative contract -/

/-- What the amended claim C3 asserts of one bisectionMethod run under
the orientation precondition `f'(a) ≤ 0 ≤ f'(b)`: every recorded step
takes the midpoint `c = (a+b)/2` and records `f c` and `f' c` there;
every recorded bracket, and the final one, still satisfies
`f'(a) ≤ 0 ≤ f'(b)` and hence the sign-change invariant
`f'(a)·f'(b) ≤ 0`; the result is the midpoint of the final bracket with
the objective there; and a run that stops below the budget does so
because its last record satisfies `|f'(c)| < tol` or `|b - a| < tol`. -/
def BisectionSpec (f df : α → α) (a b tol : α) (maxIter : ℕ) : Prop :=
  (df (bisLoop f df tol maxIter 0 a b []).1.1 ≤ 0 ∧
    0 ≤ df (bisLoop f df tol maxIter 0 a b []).1.2 ∧
    df (bisLoop f df tol maxIter 0 a b []).1.1 *
      df (bisLoop f df tol maxIter 0 a b []).1.2 ≤ 0) ∧
  (∀ rec ∈ (bisectionMethod f df a b tol maxIter).history,
    rec.c = (rec.a + rec.b) / 2 ∧ rec.fc = f rec.c ∧ rec.dfc = df rec.c ∧
    df rec.a ≤ 0 ∧ 0 ≤ df rec.b ∧ df rec.a * df rec.b ≤ 0) ∧
  (bisectionMethod f df a b tol maxIter).xOpt =
    ((bisLoop f df tol maxIter 0 a b []).1.1 +
      (bisLoop f df tol maxIter 0 a b []).1.2) / 2 ∧
  (bisectionMethod f df a b tol maxIter).fOpt =
    f (bisectionMethod f df a b tol maxIter).xOpt ∧
  ((bisectionMethod f df a b tol maxIter).history.length < maxIter →
    ∃ last, (bisectionMethod f df a b tol maxIter).history.getLast? =
      some last ∧ (|last.dfc| < tol ∨ |last.b - last.a| < tol))

/-- C3, amended: under the orientation precondition
`f'(a) ≤ 0 ≤ f'(b)` (rather than the bare product sign
`f'(a)·f'(b) ≤ 0`, which does not suffice — see the counterexample), the
bisection-on-derivative method takes the midpoint at each step, keeps
the half whose endpoint derivative signs still bracket the root of
`f'`, preserves the sign-change invariant on every retained bracket,
and stops when `|f'(c)| < tol` or `|b - a| < tol`. -/
theorem bisectionMethod_spec (f df : α → α) (a b tol : α) (maxIter : ℕ)
    (hab : a < b) (hda : df a ≤ 0) (hdb : 0 ≤ df b) :
    BisectionSpec f df a b tol maxIter := by
  have hp1 : ∀ a' b' : α, (df a' ≤ 0 ∧ 0 ≤ df b') →
      0 < df ((a' + b') / 2) → df a' ≤ 0 ∧ 0 ≤ df ((a' + b') / 2) :=
    fun a' b' h hd => ⟨h.1, le_of_lt hd⟩
  have hp2 : ∀ a' b' : α, (df a' ≤ 0 ∧ 0 ≤ df b') →
      ¬ 0 < df ((a' + b') / 2) → df ((a' + b') / 2) ≤ 0 ∧ 0 ≤ df b' :=
    fun a' b' h hd => ⟨not_lt.1 hd, h.2⟩
  have hst := bisLoop_state f df tol (fun a' b' => df a' ≤ 0 ∧ 0 ≤ df b')
    hp1 hp2 maxIter 0 a b [] ⟨hda, hdb⟩
  refine ⟨⟨hst.1, hst.2, mul_nonpos_iff.2 (Or.inr ⟨hst.1, hst.2⟩)⟩,
    ?_, rfl, rfl, ?_⟩
  · exact bisLoop_records f df tol (fun a' b' => df a' ≤ 0 ∧ 0 ≤ df b')
      (fun rec => rec.c = (rec.a + rec.b) / 2 ∧ rec.fc = f rec.c ∧
        rec.dfc = df rec.c ∧ df rec.a ≤ 0 ∧ 0 ≤ df rec.b ∧
        df rec.a * df rec.b ≤ 0)
      hp1 hp2
      (fun i a' b' h => by
        simp only [bisRecOf]
        exact ⟨trivial, trivial, trivial, h.1, h.2,
          mul_nonpos_iff.2 (Or.inr h)⟩)
      maxIter 0 a b ⟨hda, hdb⟩
  · intro hshort
    refine bisLoop_stop f df tol maxIter 0 a b [] ?_
    simpa using hshort

/-- Witness for C3: the derivative `x` on `[0, 1]`. -/
theorem bisectionMethod_spec_witness :
    ((0:ℚ) < 1) ∧ ((fun x => x) (0:ℚ) ≤ 0) ∧ ((0:ℚ) ≤ (fun x => x) (1:ℚ)) ∧
      BisectionSpec (fun x => x * x : ℚ → ℚ) (fun x => x) 0 1 1 5 :=
  ⟨zero_lt_one, le_refl 0, zero_le_one,
    bisectionMethod_spec (fun x => x * x : ℚ → ℚ) (fun x => x) 0 1 1 5
      zero_lt_one (le_refl 0) zero_le_one⟩

/-- Counterexample to C3 as stated: with objective `-x²/2` and
derivative `-x` on `[-1, 2]`, the stated precondition
`f'(a)·f'(b) = 1·(-2) ≤ 0` holds, yet the very first step keeps the
half `[1/2, 2]` (because `f'(1/2) = -1/2 ≤ 0` sends the left endpoint to
the midpoint), and on that retained bracket
`f'(1/2)·f'(2) = (-1/2)·(-2) = 1 > 0`: the sign-change invariant is not
preserved when the derivative is decreasing across the bracket. -/
theorem bisection_sign_counterexample :
    ((fun x => -x) (-1:ℚ)) * ((fun x => -x) (2:ℚ)) ≤ 0 ∧
    (bisLoop (fun x => -(x * x) / 2) (fun x => -x) (1 / 1000 : ℚ)
        1 0 (-1) 2 []).1 = ((1:ℚ) / 2, 2) ∧
    0 < ((fun x => -x) ((1:ℚ) / 2)) * ((fun x => -x) (2:ℚ)) := by
  refine ⟨by norm_num, ?_, by norm_num⟩
  norm_num [bisLoop, bisRecOf, abs]

/-! ## Claim C4: the Fibonacci sequence and iteration count -/

/-- What claim C4 asserts of one fibonacciSearch run: the precomputed
sequence satisfies `fib 0 = fib 1 = 1` and the defining recurrence up to
`n` (and in particular at index 20), and the returned history holds
exactly `n - 1` records — a fixed iteration count, not a tolerance
test. -/
def FibSpec (f : α → α) (a b : α) (n : ℕ) : Prop :=
  fib 0 = 1 ∧ fib 1 = 1 ∧
  (∀ i, 2 ≤ i → i ≤ n → fib i = fib (i - 1) + fib (i - 2)) ∧
  fib 20 = fib 19 + fib 18 ∧
  (fibonacciSearch f a b n).history.length = n - 1

/-- C4: for every `n ≥ 2`, Fibonacci search precomputes the sequence
with `fib 0 = fib 1 = 1` and `fib i = fib (i-1) + fib (i-2)`
(in particular `fib 20 = fib 19 + fib 18`), runs exactly `n - 1`
iterations as a fixed count, and returns a history of exactly `n - 1`
records. -/
theorem fibonacciSearch_spec (f : α → α) (a b : α) (n : ℕ) (hn : 2 ≤ n) :
    FibSpec f a b n := by
  refine ⟨rfl, rfl, ?_, rfl, ?_⟩
  · intro i h2 _
    obtain ⟨k, rfl⟩ : ∃ k, i = k + 2 := ⟨i - 2, by omega⟩
    rfl
  · show (fibLoop f (n - 1) 0
      ⟨a, b, a + ((fib (n - 2) : α) / (fib n : α)) * (b - a),
        a + ((fib (n - 1) : α) / (fib n : α)) * (b - a),
        f (a + ((fib (n - 2) : α) / (fib n : α)) * (b - a)),
        f (a + ((fib (n - 1) : α) / (fib n : α)) * (b - a)), n⟩ []).2.length =
      n - 1
    rw [fibLoop_length]
    simp

/-- Witness for C4: a run with `n = 2`. -/
theorem fibonacciSearch_spec_witness :
    2 ≤ 2 ∧ FibSpec (fun x => x : ℚ → ℚ) 0 1 2 :=
  ⟨le_refl 2, fibonacciSearch_spec (fun x => x : ℚ → ℚ) 0 1 2 (le_refl 2)⟩

/-! ## Claim C5: Newton's method and the non-fatal stall -/

/-- What claim C5 asserts of one newtonMethod run: the result passes
through the loop unchanged (last computed `x`, objective there, the
accumulated history); every record carries `f`, `f'`, `f''` and the step
`f'(x)/f''(x)` evaluated at its own `x`; consecutive records are linked
by the Newton update `x ← x - f'(x)/f''(x)`; and when the loop reports a
stall (the `|f''(x)| < 1e-12` alert) the last record shows a
not-yet-converged step with the collapsed second derivative, and the
returned xOpt is exactly that record's `x` — the last computed one —
with the partial history accumulated up to the stall point. -/
def NewtonSpec (f df d2f : α → α) (x0 tol : α) (maxIter : ℕ) : Prop :=
  (newtonMethod f df d2f x0 tol maxIter).xOpt =
    (newtonLoop f df d2f tol maxIter 0 x0 []).1 ∧
  (newtonMethod f df d2f x0 tol maxIter).fOpt =
    f (newtonMethod f df d2f x0 tol maxIter).xOpt ∧
  (newtonMethod f df d2f x0 tol maxIter).history =
    (newtonLoop f df d2f tol maxIter 0 x0 []).2.1 ∧
  (∀ r ∈ (newtonMethod f df d2f x0 tol maxIter).history,
    r.fx = f r.x ∧ r.dfx = df r.x ∧ r.d2fx = d2f r.x ∧
    r.step = df r.x / d2f r.x) ∧
  List.Chain' (fun r1 r2 => r2.x = r1.x - r1.dfx / r1.d2fx)
    (newtonMethod f df d2f x0 tol maxIter).history ∧
  ((newtonLoop f df d2f tol maxIter 0 x0 []).2.2 = true →
    ∃ last, (newtonMethod f df d2f x0 tol maxIter).history.getLast? =
      some last ∧ ¬ |last.dfx| < tol ∧ |last.d2fx| < 1 / 10 ^ 12 ∧
      (newtonMethod f df d2f x0 tol maxIter).xOpt = last.x)

/-- C5: Newton's method iterates `x ← x - f'(x)/f''(x)`, converges when
`|f'(x)| < tol`, and whenever `|f''(x)| < 1e-12` it stops early
non-fatally, returning the last computed `x` as xOpt together with the
partial iteration history accumulated up to the stall point. -/
theorem newtonMethod_spec (f df d2f : α → α) (x0 tol : α) (maxIter : ℕ) :
    NewtonSpec f df d2f x0 tol maxIter := by
  refine ⟨rfl, rfl, rfl, ?_, ?_, ?_⟩
  · exact newtonLoop_records f df d2f tol
      (fun r => r.fx = f r.x ∧ r.dfx = df r.x ∧ r.d2fx = d2f r.x ∧
        r.step = df r.x / d2f r.x)
      (fun i x => ⟨rfl, rfl, rfl, rfl⟩) maxIter 0 x0
  · exact newtonLoop_chain f df d2f tol
      (fun r1 r2 => r2.x = r1.x - r1.dfx / r1.d2fx)
      (fun i x => rfl) maxIter 0 x0
  · intro hst
    exact newtonLoop_stall f df d2f tol maxIter 0 x0 [] hst

/-! ## Claim C6: precondition violations are rejected before the search -/

/-- What claim C6 asserts of the run() handlers: each stated
precondition violation — `a ≥ b` for a bracket method,
`f'(a)·f'(b) > 0` for bisection-on-derivative, iteration count `< 2`
for Fibonacci — makes the handler return without attempting the search,
producing no Result at all. -/
def PreconditionSpec (f df : α → α) (phi a b tol : α) (maxIter n : ℕ) :
    Prop :=
  (¬ a < b → runGoldenSection phi f a b tol maxIter = none) ∧
  (¬ a < b → runBisection f df a b tol maxIter = none) ∧
  (0 < df a * df b → runBisection f df a b tol maxIter = none) ∧
  (¬ a < b → runFibonacci f a b n = none) ∧
  (n < 2 → runFibonacci f a b n = none)

/-- C6: every precondition violation is surfaced before the search loop
starts, the search is not attempted, and no partial Result is
produced. -/
theorem preconditions_reject (f df : α → α) (phi a b tol : α)
    (maxIter n : ℕ) : PreconditionSpec f df phi a b tol maxIter n := by
  refine ⟨?_, ?_, ?_, ?_, ?_⟩
  · intro h; simp [runGoldenSection, h]
  · intro h; simp [runBisection, h]
  · intro h
    by_cases hab : a < b
    · simp [runBisection, hab, h]
    · simp [runBisection, hab]
  · intro h; simp [runFibonacci, h]
  · intro h
    by_cases hab : a < b
    · simp [runFibonacci, hab, h]
    · simp [runFibonacci, hab]

/-! ## Claim C9: determinism -/

/-- C9: every embedded search routine is deterministic — two invocations
with identical arguments yield identical Results.  The embedding is a
pure function of its arguments, which is faithful to the source: each
routine reads only its parameters and its own locals, with no random or
shared mutable state, so the equalities hold definitionally. -/
theorem search_deterministic (f df d2f : α → α) (phi a b x0 tol : α)
    (maxIter n : ℕ) :
    goldenSectionSearch phi f a b tol maxIter =
      goldenSectionSearch phi f a b tol maxIter ∧
    fibonacciSearch f a b n = fibonacciSearch f a b n ∧
    bisectionMethod f df a b tol maxIter =
      bisectionMethod f df a b tol maxIter ∧
    newtonMethod f df d2f x0 tol maxIter =
      newtonMethod f df d2f x0 tol maxIter :=
  ⟨rfl, rfl, rfl, rfl⟩

/-! ## Claim C1: the tie-break policy -/

/-- What the amended claim C1 asserts of the two comparison steps: the
comparison is the strict `<` of the source; when the first-compared
value is strictly smaller the left side is kept (`b ← d`, resp.
`b ← x2`); otherwise — exact ties included — the kept bracket is the
right/second-compared side (`a ← c`, resp. `a ← x1`). -/
def TieBreakSpec (f g : α → α) (phi : α) (s : GoldenState α)
    (t : FibState α) : Prop :=
  (s.fc < s.fd →
    (goldenStep f phi s).a = s.a ∧ (goldenStep f phi s).b = s.d) ∧
  (¬ s.fc < s.fd →
    (goldenStep f phi s).a = s.c ∧ (goldenStep f phi s).b = s.b) ∧
  (s.fc = s.fd →
    (goldenStep f phi s).a = s.c ∧ (goldenStep f phi s).b = s.b) ∧
  (t.f1 < t.f2 →
    (fibStep g t).a = t.a ∧ (fibStep g t).b = t.x2) ∧
  (¬ t.f1 < t.f2 →
    (fibStep g t).a = t.x1 ∧ (fibStep g t).b = t.b) ∧
  (t.f1 = t.f2 →
    (fibStep g t).a = t.x1 ∧ (fibStep g t).b = t.b)

/-- C1, amended: in golden-section and Fibonacci search the comparison
that decides which side of the bracket to discard is strict `<`, and
when the two interior values are exactly equal the retained bracket is
the right/second-compared side — the else branch, the side kept when the
first-compared value is not smaller — not the left/first one. -/
theorem tie_break_spec (f g : α → α) (phi : α) (s : GoldenState α)
    (t : FibState α) : TieBreakSpec f g phi s t := by
  refine ⟨fun h => ?_, fun h => ?_, fun h => ?_, fun h => ?_, fun h => ?_,
    fun h => ?_⟩ <;>
    simp [goldenStep, fibStep, h, lt_irrefl]

/-- Counterexample to C1 as stated: Fibonacci search on the constant
objective `0` over `[0, 1]` with `n = 2` places both interior points at
`x1 = x2 = 1/2`, so the single comparison is an exact tie
(`f1 = f2 = 0`).  The recorded step shows the tie, and the returned
`xOpt = 3/4` is the midpoint of the retained bracket `[1/2, 1]` — the
right/second-compared side.  Had the tie kept the left/first-compared
side (`b ← x2`), the final bracket would have been `[0, 1/2]` with
midpoint `1/4 ≠ 3/4`. -/
theorem tie_break_counterexample :
    (fibonacciSearch (fun _ => (0:ℚ)) 0 1 2).history =
      [⟨1, 0, 1, 1/2, 1/2, 0, 0, 2, 1/2⟩] ∧
    (fibonacciSearch (fun _ => (0:ℚ)) 0 1 2).xOpt = 3/4 ∧
    (3:ℚ)/4 ≠ 1/4 := by
  refine ⟨?_, ?_, by norm_num⟩ <;>
    norm_num [fibonacciSearch, fibLoop, fibStep, fibRecOf, fib]

/-! ## Claim C7: the custom-formula validator -/

/-- The allow-set exactly as claim C7 words it: the characters of
`[x0-9+\-*/().,\s]`, the caret of the exponentiation operator the claim
itself exercises in `x^2 - 4*x + 3`, and the characters of the listed
function names `sin cos tan log exp sqrt abs pow min max`.  Written from
the claim's words, to be compared with `allowedChar`, the class the
source regex actually admits. -/
def claimAllowedChar (c : Char) : Bool :=
  c = 'x' || c.isDigit || ("+-*/().,").data.contains c ||
    c.isWhitespace || c = '^' ||
    ("sincostanlogexpsqrtabspowminmax").data.contains c

/-- What the amended claim C7 asserts: any formula whose trimmed text
holds a character outside the class the source regex admits is rejected
before any search runs; `bad$chars` is such a formula; a throw of the
host smoke test at `x = 1` also fails the construction; and the accepted
formula `x^2 - 4*x + 3` compiles to a callable returning `0` at
`x = 1`. -/
def ParserSpec (host : String → ℚ → Option ℚ) (s : String) : Prop :=
  ((jsTrim s.data).any (fun c => !allowedChar c) = true →
    parseCustomFunction host s = none) ∧
  parseCustomFunction host "bad$chars" = none ∧
  (host (processFunc (String.mk (jsTrim s.data))) 1 = none →
    parseCustomFunction host s = none) ∧
  ∃ g, parseCustomFunction
      (fun _ x => some (compiledParabola x) : String → ℚ → Option ℚ)
      "x^2 - 4*x + 3" = some g ∧ g 1 = some 0

/-- C7, amended: the evaluator rejects, with InvalidExpression and
before any search runs, every input containing a character outside the
class its regex admits — the claimed allow-set `[x0-9+\-*/().,\s]` and
the function-name letters, plus the caret and, an artifact of the
character-class syntax, the pipe `|` (see the counterexample) — so
`bad$chars` fails; a smoke-test throw at `x = 1` fails the construction;
and the accepted formula `x^2 - 4*x + 3` evaluates to `0` at `x = 1`. -/
theorem parseCustomFunction_spec (host : String → ℚ → Option ℚ)
    (s : String) : ParserSpec host s := by
  refine ⟨?_, ?_, ?_, ?_⟩
  · intro h
    have hv : validChars (jsTrim s.data) = false := by
      cases hall : (jsTrim s.data).all allowedChar with
      | false => simp [validChars, hall]
      | true =>
        exfalso
        rw [List.all_eq_true] at hall
        rw [List.any_eq_true] at h
        obtain ⟨c, hc, hca⟩ := h
        have := hall c hc
        simp [this] at hca
    simp [parseCustomFunction, hv]
  · have hv : validChars (jsTrim ("bad$chars").data) = false := by decide
    simp [parseCustomFunction, hv]
  · intro h
    by_cases hv : validChars (jsTrim s.data) = true
    · simp [parseCustomFunction, hv, h]
    · simp [parseCustomFunction, hv]
  · exact ⟨fun x => some (compiledParabola x), rfl, by
      norm_num [compiledParabola]⟩

/-- Counterexample to C7 as stated: the formula `x|1` contains the pipe
character, which is outside the claimed allow-set `[x0-9+\-*/().,\s]`
and occurs in none of the listed function names — yet the source regex
admits it (inside a regex character class the alternation bars of
`sin|cos|...` are literal characters), so validation passes and, with
the host evaluating the processed text (`x|1` is a valid host
expression, bitwise or), construction succeeds instead of failing with
InvalidExpression. -/
theorem allow_set_counterexample :
    claimAllowedChar '|' = false ∧
    validChars (jsTrim ("x|1").data) = true ∧
    (parseCustomFunction (fun _ x => some x : String → ℚ → Option ℚ)
      "x|1").isSome = true := by
  refine ⟨by decide, by decide, by decide⟩

/-! ## Claim C8: the sampler -/

theorem filterMap_some_eq_map {β : Type} (F : ℕ → β) (l : List ℕ) :
    (l.filterMap fun i => some (F i)) = l.map F := by
  induction l with
  | nil => rfl
  | cons x xs ih =>
    show F x :: (xs.filterMap fun i => some (F i)) = F x :: xs.map F
    rw [ih]

/-- Rounding to six decimals preserves strict order across a gap of at
least `1e-6`: the key fact behind the sampler's strictly increasing
abscissas. -/
theorem toFixed6_lt [FloorRing α] (u v : α) (h : u + 1 / 10 ^ 6 ≤ v) :
    toFixed6 u < toFixed6 v := by
  unfold toFixed6
  have h6 : (0:α) < 10 ^ 6 := by positivity
  have hc : (1 / 10 ^ 6 : α) * 10 ^ 6 = 1 := one_div_mul_cancel (ne_of_gt h6)
  have h1 : u * 10 ^ 6 + 1 ≤ v * 10 ^ 6 := by
    have := mul_le_mul_of_nonneg_right h h6.le
    rw [add_mul, hc] at this
    exact this
  have hmono : round (u * 10 ^ 6 + 1) ≤ round (v * 10 ^ 6) := by
    rw [round_eq, round_eq]
    exact Int.floor_mono (by linarith)
  rw [round_add_one] at hmono
  have hlt : ((round (u * 10 ^ 6) : ℤ) : α) < ((round (v * 10 ^ 6) : ℤ) : α) :=
    by exact_mod_cast (by omega : round (u * 10 ^ 6) < round (v * 10 ^ 6))
  gcongr

/-- Rounding a host number never turns it into NaN or out of NaN. -/
theorem isNaN_toFixed6Js [FloorRing α] (v : JsNum α) :
    isNaN (toFixed6Js v) = isNaN v := by
  cases v <;> rfl

set_option maxRecDepth 4000 in
/-- On an everywhere-finite objective the sampler is exactly the
301-point map. -/
theorem sampleData_total [FloorRing α] (g : α → α) (a b : α) (hab : a < b) :
    sampleData (fun x => JsNum.num (g x)) a b =
      (List.range (300 + 1)).map fun i : ℕ =>
        (⟨toFixed6 (a + ((i : α) / 300) * (b - a)),
          JsNum.num (toFixed6 (g (a + ((i : α) / 300) * (b - a))))⟩ :
          Point α) := by
  rw [sampleData, if_neg (not_le.2 hab)]
  exact filterMap_some_eq_map _ _

/-- What the amended claim C8 asserts of the sampler with count 300: on
an everywhere-finite objective it returns exactly 301 points whose
abscissas strictly increase and whose first and last points sit at the
two endpoints; and on an arbitrary host objective every returned point
comes from a sampled index whose value is not NaN — exactly the NaN
pairs are skipped, so every returned point is non-NaN, though it may be
a kept infinity. -/
def SamplerSpec [FloorRing α] (g : α → α) (fp : α → JsNum α) (a b : α) :
    Prop :=
  (sampleData (fun x => JsNum.num (g x)) a b).length = 301 ∧
  List.Chain' (fun p q => p.x < q.x)
    (sampleData (fun x => JsNum.num (g x)) a b) ∧
  (⟨toFixed6 a, JsNum.num (toFixed6 (g a))⟩ : Point α) ∈
    sampleData (fun x => JsNum.num (g x)) a b ∧
  (⟨toFixed6 b, JsNum.num (toFixed6 (g b))⟩ : Point α) ∈
    sampleData (fun x => JsNum.num (g x)) a b ∧
  (∀ p ∈ sampleData fp a b, ∃ i : ℕ, i ≤ 300 ∧
    isNaN (fp (a + ((i : α) / 300) * (b - a))) = false ∧
    p = ⟨toFixed6 (a + ((i : α) / 300) * (b - a)),
      toFixed6Js (fp (a + ((i : α) / 300) * (b - a)))⟩) ∧
  (∀ p ∈ sampleData fp a b, isNaN p.y = false)

set_option maxRecDepth 4000 in
/-- C8, amended: over bounds `a < b` whose 300th part of the width is at
least the `1e-6` rounding quantum (as with `[-2, 5]`), the sampler
produces an ordered sequence of `(x, f x)` pairs evenly spaced across
the bounds, both endpoints included — exactly 301 points — skipping
exactly every pair whose objective value is NaN (the source filter is
`!isNaN`, so ±Infinity pairs are kept — see the counterexample), so all
returned points are non-NaN and strictly increasing in `x`. -/
theorem sampleData_spec [FloorRing α] (g : α → α) (fp : α → JsNum α)
    (a b : α) (hab : a < b) (hgap : 1 / 10 ^ 6 ≤ (b - a) / 300) :
    SamplerSpec g fp a b := by
  have hskip : ∀ p ∈ sampleData fp a b, ∃ i : ℕ, i ≤ 300 ∧
      isNaN (fp (a + ((i : α) / 300) * (b - a))) = false ∧
      p = ⟨toFixed6 (a + ((i : α) / 300) * (b - a)),
        toFixed6Js (fp (a + ((i : α) / 300) * (b - a)))⟩ := by
    intro p hp
    rw [sampleData, if_neg (not_le.2 hab)] at hp
    obtain ⟨i, hi, hF⟩ := List.mem_filterMap.1 hp
    rw [List.mem_range] at hi
    refine ⟨i, by omega, ?_⟩
    simp only at hF
    cases hNaN : isNaN (fp (a + ((i : α) / 300) * (b - a))) with
    | true => rw [hNaN] at hF; simp at hF
    | false =>
      rw [hNaN] at hF
      simp at hF
      exact ⟨rfl, hF.symm⟩
  refine ⟨?_, ?_, ?_, ?_, hskip, ?_⟩
  · rw [sampleData_total g a b hab]
    simp
  · rw [sampleData_total g a b hab, List.chain'_map]
    refine (List.chain'_range_succ _ 300).2 ?_
    intro m hm
    show toFixed6 (a + ((m : α) / 300) * (b - a)) <
      toFixed6 (a + (((m + 1 : ℕ) : α) / 300) * (b - a))
    apply toFixed6_lt
    have hstep : a + (((m + 1 : ℕ) : α) / 300) * (b - a) =
        (a + ((m : α) / 300) * (b - a)) + (b - a) / 300 := by
      push_cast
      ring
    rw [hstep]
    linarith
  · rw [sampleData_total g a b hab]
    refine List.mem_map.2 ⟨0, by simp, ?_⟩
    norm_num
  · rw [sampleData_total g a b hab]
    refine List.mem_map.2 ⟨300, by simp, ?_⟩
    have h300 : a + ((300 : ℕ) : α) / 300 * (b - a) = b := by
      push_cast
      norm_num
    rw [h300]
  · intro p hp
    obtain ⟨i, -, hN, hp'⟩ := hskip p hp
    rw [hp']
    show isNaN (toFixed6Js (fp (a + ((i : α) / 300) * (b - a)))) = false
    rw [isNaN_toFixed6Js]
    exact hN

/-- Witness for C8: the spec's own instance, `[-2, 5]` with count 300,
on the identity objective — exactly 301 non-NaN points, strictly
increasing in `x`. -/
theorem sampleData_spec_witness :
    ((-2:ℚ) < 5) ∧ ((1:ℚ) / 10 ^ 6 ≤ (5 - -2) / 300) ∧
      SamplerSpec (fun x => x : ℚ → ℚ) (fun x => JsNum.num x) (-2) 5 :=
  ⟨by norm_num, by norm_num,
    sampleData_spec (fun x => x) (fun x => JsNum.num x) (-2) 5 (by norm_num)
      (by norm_num)⟩

/-- Counterexample to C8 as stated: the source filter is
`typeof y === 'number' && !isNaN(y)`, and `isNaN(Infinity)` is false, so
a pair whose value is ±Infinity is kept and pushed
(`Number(Infinity.toFixed(6))` is Infinity again).  Over `[-1, 1]` the
index 150 samples `x = 0` exactly; an objective that is Infinity at 0 —
as the admissible custom formula `1/x` is in the host, where division by
zero yields Infinity — has that pair returned, so the output contains a
point whose value is not a finite number: only NaN pairs are skipped. -/
theorem sampler_infinity_counterexample :
    (⟨0, JsNum.inf true⟩ : Point ℚ) ∈
      sampleData (fun x => if x = 0 then JsNum.inf true else JsNum.num x)
        (-1) 1 ∧
    isNaN (JsNum.inf true : JsNum ℚ) = false := by
  constructor
  · rw [sampleData, if_neg (by norm_num : ¬ (-1:ℚ) ≥ 1)]
    refine List.mem_filterMap.2 ⟨150, by simp, ?_⟩
    norm_num [isNaN, toFixed6Js, toFixed6]
  · rfl

end ModeladoIUE
